import Mathlib

/-!
# Verification of the libcmd message / command / handler core

A shallow embedding of the repository's core: fixed-layout binary message
formats (`message.h`), the `Command` abstraction (`command.h`) and the
`Handler` dispatch algorithm (`handler.h`), together with proofs of the
spec's testable properties.

Modelling conventions:
* A byte is a `Nat` (values of interest are `< 256`; the encoders only
  produce such values, and theorems that consume raw buffers carry the
  bound as a hypothesis where it matters).
* A packed message format of unsigned-integer fields is modelled by the
  list of its field widths in bytes (`List Nat`); a format *value* is the
  list of its field values in declaration order.  The `memcpy`-based
  serialization of `Message::serialize` on a little-endian target is the
  concatenation of the little-endian byte images of the fields, and the
  `memcpy`-based construction from raw bytes is the inverse split.
* C++ exceptions are modelled by `Except`; the `Result<void, E>` returned
  by `Handler::execute` is modelled by `Except` with the success value
  carrying the list of frames the command pushed through
  `Communicator::respond`.
-/

/-- Little-endian byte image of a `w`-byte unsigned integer field, exactly the
in-memory representation `Message::serialize` copies out with `memcpy`. -/
def encodeLE : Nat → Nat → List Nat
  | 0, _ => []
  | w + 1, v => v % 256 :: encodeLE w (v / 256)

/-- Value of a little-endian byte image, exactly what `memcpy` into an
unsigned integer field of that width reads back. -/
def decodeLE : List Nat → Nat
  | [] => 0
  | b :: bs => b + 256 * decodeLE bs

/-- Image of `Message::serialize`: the raw memory image of a packed struct value is the
concatenation of the little-endian images of its fields. -/
def serializeFields : List Nat → List Nat → List Nat
  | [], _ => []
  | _ :: _, [] => []
  | w :: ws, v :: vs => encodeLE w v ++ serializeFields ws vs

/-- Effect of `memcpy` of a raw buffer into a packed struct: split the buffer at the
field widths and decode each chunk. -/
def deserializeFields : List Nat → List Nat → List Nat
  | [], _ => []
  | w :: ws, bs => decodeLE (bs.take w) :: deserializeFields ws (bs.drop w)

/-- A format value is well formed when it has one value per field and each
value is representable in its field's width. -/
def wellFormedVal : List Nat → List Nat → Bool
  | [], [] => true
  | w :: ws, v :: vs => decide (v < 256 ^ w) && wellFormedVal ws vs
  | _, _ => false

/-- Value of `sizeof` for a packed struct: the sum of its field widths. -/
def formatSize (ws : List Nat) : Nat := ws.sum

/-- The two construction-time errors of the message layer:
`MessageLengthError` (buffer size differs from `sizeof`) and
`MessageWrongIdError` (decoded `id` field differs from `F::ID`). -/
inductive MsgError where
  | LengthError
  | WrongIdError
deriving DecidableEq

namespace Message

/-- Constructor `Message::Message(const std::vector<std::uint8_t>&)`: check the buffer
length against `sizeof(MessageFormat)`, then `memcpy` the buffer into the
content struct.  Any other length throws (modelled as `Except.error`). -/
def fromBytes (ws : List Nat) (bs : List Nat) : Except MsgError (List Nat) :=
  if bs.length = formatSize ws then .ok (deserializeFields ws bs)
  else .error .LengthError

/-- Method `Message::serialize()`: the raw memory image of the stored content. -/
def serialize (ws vs : List Nat) : List Nat := serializeFields ws vs

end Message

namespace ReceivedMessage

/-- Modelled from the spec: the ID-checking `ReceivedMessage` constructor
(`MessageWrongIdError` and this check appear only in the repository's tests;
the `message.h` revision defining them is not among the sources).  Per the
spec, `fromBytes` fails with `LengthError` when the length differs from
`sizeof(F)`, and otherwise fails with `WrongIdError` when the decoded `id`
field — the leading byte, since `id` is a 1-byte field at offset 0 — differs
from `F::ID`; the ID check is performed after the length check. -/
def fromBytesChecked (ws : List Nat) (fid : Nat) (bs : List Nat) :
    Except MsgError (List Nat) :=
  if bs.length ≠ formatSize ws then .error .LengthError
  else if bs.headD 0 ≠ fid then .error .WrongIdError
  else .ok (deserializeFields ws bs)

end ReceivedMessage

/- ――――――――――――――――  basic lemmas about the byte codecs  ―――――――――――――――― -/

theorem encodeLE_length (w v : Nat) : (encodeLE w v).length = w := by
  induction w generalizing v with
  | zero => simp [encodeLE]
  | succ w ih => simp [encodeLE, ih]

theorem encodeLE_lt (w v : Nat) : ∀ b ∈ encodeLE w v, b < 256 := by
  induction w generalizing v with
  | zero => simp [encodeLE]
  | succ w ih =>
    intro b hb
    simp only [encodeLE, List.mem_cons] at hb
    rcases hb with h | h
    · exact h ▸ Nat.mod_lt _ (by norm_num)
    · exact ih (v / 256) b h

theorem decodeLE_encodeLE (w v : Nat) (hv : v < 256 ^ w) :
    decodeLE (encodeLE w v) = v := by
  induction w generalizing v with
  | zero =>
    simp [encodeLE, decodeLE]
    omega
  | succ w ih =>
    have hdiv : v / 256 < 256 ^ w := by
      rw [Nat.div_lt_iff_lt_mul (by norm_num : 0 < 256)]
      calc v < 256 ^ (w + 1) := hv
        _ = 256 ^ w * 256 := by ring
    simp only [encodeLE, decodeLE, ih (v / 256) hdiv]
    omega

theorem encodeLE_decodeLE (bs : List Nat) (hlt : ∀ b ∈ bs, b < 256) :
    encodeLE bs.length (decodeLE bs) = bs := by
  induction bs with
  | nil => simp [encodeLE]
  | cons b rest ih =>
    have hb : b < 256 := hlt b (List.mem_cons_self _ _)
    have hrest : ∀ x ∈ rest, x < 256 := fun x hx => hlt x (List.mem_cons_of_mem _ hx)
    simp only [List.length_cons, encodeLE, decodeLE]
    have hmod : (b + 256 * decodeLE rest) % 256 = b := by omega
    have hdiv : (b + 256 * decodeLE rest) / 256 = decodeLE rest := by omega
    rw [hmod, hdiv, ih hrest]

theorem encodeLE_decodeLE' (w : Nat) (bs : List Nat) (hw : bs.length = w)
    (hlt : ∀ b ∈ bs, b < 256) : encodeLE w (decodeLE bs) = bs :=
  hw ▸ encodeLE_decodeLE bs hlt

theorem decodeLE_lt (bs : List Nat) (hlt : ∀ b ∈ bs, b < 256) :
    decodeLE bs < 256 ^ bs.length := by
  induction bs with
  | nil => simp [decodeLE]
  | cons b rest ih =>
    have hb : b < 256 := hlt b (List.mem_cons_self _ _)
    have hrest := ih (fun x hx => hlt x (List.mem_cons_of_mem _ hx))
    simp only [decodeLE, List.length_cons, pow_succ]
    calc b + 256 * decodeLE rest < 256 * (decodeLE rest + 1) := by omega
      _ ≤ 256 * 256 ^ rest.length := by
        have : decodeLE rest + 1 ≤ 256 ^ rest.length := hrest
        omega
      _ = 256 ^ rest.length * 256 := by ring

theorem serializeFields_length (ws vs : List Nat)
    (h : wellFormedVal ws vs = true) :
    (serializeFields ws vs).length = formatSize ws := by
  induction ws generalizing vs with
  | nil =>
    cases vs with
    | nil => simp [serializeFields, formatSize]
    | cons v vs => simp [wellFormedVal] at h
  | cons w ws ih =>
    cases vs with
    | nil => simp [wellFormedVal] at h
    | cons v vs =>
      simp only [wellFormedVal, Bool.and_eq_true, decide_eq_true_eq] at h
      simp only [serializeFields, List.length_append, encodeLE_length,
        formatSize, List.sum_cons]
      rw [ih vs h.2]
      rfl

theorem deserializeFields_serializeFields (ws vs : List Nat)
    (h : wellFormedVal ws vs = true) :
    deserializeFields ws (serializeFields ws vs) = vs := by
  induction ws generalizing vs with
  | nil =>
    cases vs with
    | nil => simp [serializeFields, deserializeFields]
    | cons v vs => simp [wellFormedVal] at h
  | cons w ws ih =>
    cases vs with
    | nil => simp [wellFormedVal] at h
    | cons v vs =>
      simp only [wellFormedVal, Bool.and_eq_true, decide_eq_true_eq] at h
      simp only [serializeFields, deserializeFields,
        List.take_left' (encodeLE_length w v), List.drop_left' (encodeLE_length w v)]
      rw [decodeLE_encodeLE w v h.1, ih vs h.2]

theorem serializeFields_deserializeFields (ws : List Nat) (bs : List Nat)
    (hlen : bs.length = formatSize ws) (hlt : ∀ b ∈ bs, b < 256) :
    serializeFields ws (deserializeFields ws bs) = bs := by
  induction ws generalizing bs with
  | nil =>
    have : bs = [] := List.eq_nil_of_length_eq_zero hlen
    simp [this, serializeFields, deserializeFields]
  | cons w ws ih =>
    simp only [formatSize, List.sum_cons] at hlen
    have hw : w ≤ bs.length := by omega
    have htake : (bs.take w).length = w := by
      simp [List.length_take]; omega
    have hdrop : (bs.drop w).length = formatSize ws := by
      simp [List.length_drop, formatSize]; omega
    simp only [deserializeFields, serializeFields]
    rw [encodeLE_decodeLE' w (bs.take w) htake (fun b hb => hlt b (List.mem_of_mem_take hb)),
      ih (bs.drop w) hdrop (fun b hb => hlt b (List.mem_of_mem_drop hb))]
    exact List.take_append_drop w bs

theorem wellFormedVal_deserializeFields (ws bs : List Nat)
    (hlen : bs.length = formatSize ws) (hlt : ∀ b ∈ bs, b < 256) :
    wellFormedVal ws (deserializeFields ws bs) = true := by
  induction ws generalizing bs with
  | nil => simp [deserializeFields, wellFormedVal]
  | cons w ws ih =>
    simp only [formatSize, List.sum_cons] at hlen
    have htake : (bs.take w).length = w := by
      simp [List.length_take]; omega
    have hdrop : (bs.drop w).length = formatSize ws := by
      simp [List.length_drop, formatSize]; omega
    have hdec : decodeLE (bs.take w) < 256 ^ w := by
      have := decodeLE_lt (bs.take w) (fun b hb => hlt b (List.mem_of_mem_take hb))
      rwa [htake] at this
    simp only [deserializeFields, wellFormedVal, Bool.and_eq_true, decide_eq_true_eq]
    exact ⟨hdec, ih (bs.drop w) hdrop (fun b hb => hlt b (List.mem_of_mem_drop hb))⟩

/- ――――――――――――――――  claims about the message layer  ―――――――――――――――― -/

/-- Claim C2: for every well-formed format value `v`, serializing the
`Message` built from `v` and constructing a `Message` back from those bytes
yields `v` again byte-for-byte, and the serialized buffer has length exactly
`sizeof(F)`. -/
theorem Message_serialize_roundtrip (ws vs : List Nat)
    (h : wellFormedVal ws vs = true) :
    Message.fromBytes ws (Message.serialize ws vs) = .ok vs ∧
    (Message.serialize ws vs).length = formatSize ws := by
  have hlen := serializeFields_length ws vs h
  refine ⟨?_, hlen⟩
  simp [Message.fromBytes, Message.serialize, hlen,
    deserializeFields_serializeFields ws vs h]

/-- Witness for C2 at the format `{id:u8, a:u8, b:u16}` (the shape of the
test suite's `GoodFormat`) and the value `{0x42, 0xAB, 0xCDEF}`. -/
theorem Message_serialize_roundtrip_witness :
    wellFormedVal [1, 1, 2] [0x42, 0xAB, 0xCDEF] = true ∧
    (Message.fromBytes [1, 1, 2] (Message.serialize [1, 1, 2] [0x42, 0xAB, 0xCDEF]) =
        .ok [0x42, 0xAB, 0xCDEF] ∧
      (Message.serialize [1, 1, 2] [0x42, 0xAB, 0xCDEF]).length = formatSize [1, 1, 2]) :=
  ⟨by decide, Message_serialize_roundtrip [1, 1, 2] [0x42, 0xAB, 0xCDEF] (by decide)⟩

/-- Claim C3: constructing a `Message<F>` (and hence any `ReceivedMessage` or
`Command` over `F`) from a buffer whose length differs from `sizeof(F)`
always fails with `LengthError` — never succeeds, never with another error —
and for a buffer of length exactly `sizeof(F)` the length check passes. -/
theorem Message_length_enforcement (ws bs : List Nat) (fid : Nat) :
    (bs.length ≠ formatSize ws →
      Message.fromBytes ws bs = .error .LengthError ∧
      ReceivedMessage.fromBytesChecked ws fid bs = .error .LengthError) ∧
    (bs.length = formatSize ws →
      Message.fromBytes ws bs = .ok (deserializeFields ws bs)) := by
  constructor
  · intro hne
    exact ⟨by simp [Message.fromBytes, hne], by simp [ReceivedMessage.fromBytesChecked, hne]⟩
  · intro heq
    simp [Message.fromBytes, heq]

/-- Witness for C3: a 3-byte buffer against a 4-byte format fails with
`LengthError` in both constructors, and a 4-byte buffer passes the check. -/
theorem Message_length_enforcement_witness :
    (Message.fromBytes [1, 1, 2] [0, 0, 0] = .error .LengthError ∧
      ReceivedMessage.fromBytesChecked [1, 1, 2] 0x42 [0, 0, 0] = .error .LengthError) ∧
    Message.fromBytes [1, 1, 2] [0x42, 0, 0, 0] =
      .ok (deserializeFields [1, 1, 2] [0x42, 0, 0, 0]) :=
  ⟨(Message_length_enforcement [1, 1, 2] [0, 0, 0] 0x42).1 (by decide),
   (Message_length_enforcement [1, 1, 2] [0x42, 0, 0, 0] 0x42).2 (by decide)⟩

/-- Claim C6: for a buffer of the correct length whose decoded `id` field
(the leading byte) differs from `F::ID`, the ID-checking `ReceivedMessage`
constructor fails with `WrongIdError`; the ID check runs after the length
check, so a buffer that is both the wrong length and has a wrong leading
byte fails with `LengthError`. -/
theorem ReceivedMessage_id_enforcement (ws bs : List Nat) (fid : Nat) :
    (bs.length = formatSize ws → bs.headD 0 ≠ fid →
      ReceivedMessage.fromBytesChecked ws fid bs = .error .WrongIdError) ∧
    (bs.length ≠ formatSize ws →
      ReceivedMessage.fromBytesChecked ws fid bs = .error .LengthError) := by
  constructor
  · intro hlen hid
    unfold ReceivedMessage.fromBytesChecked
    rw [if_neg (fun hc => hc hlen), if_pos hid]
  · intro hne
    simp [ReceivedMessage.fromBytesChecked, hne]

/-- Witness for C6: a correct-length buffer with leading byte `0x43 ≠ 0x42`
fails with `WrongIdError`; a wrong-length buffer with the same wrong leading
byte fails with `LengthError`. -/
theorem ReceivedMessage_id_enforcement_witness :
    ReceivedMessage.fromBytesChecked [1, 1, 2] 0x42 [0x43, 0, 0, 0] =
      .error .WrongIdError ∧
    ReceivedMessage.fromBytesChecked [1, 1, 2] 0x42 [0x43, 0, 0] =
      .error .LengthError :=
  ⟨(ReceivedMessage_id_enforcement [1, 1, 2] [0x43, 0, 0, 0] 0x42).1 (by decide) (by decide),
   (ReceivedMessage_id_enforcement [1, 1, 2] [0x43, 0, 0] 0x42).2 (by decide)⟩

/-- Claim C10: for every byte buffer `b` of length exactly `sizeof(F)`,
constructing a `Message<F>` from `b` always succeeds — no validation of the
content beyond the length is performed — and serializing the resulting
message reproduces `b` byte-for-byte. -/
theorem Message_bytes_roundtrip (ws bs : List Nat)
    (hlen : bs.length = formatSize ws) (hlt : ∀ b ∈ bs, b < 256) :
    Message.fromBytes ws bs = .ok (deserializeFields ws bs) ∧
    Message.serialize ws (deserializeFields ws bs) = bs := by
  refine ⟨by simp [Message.fromBytes, hlen], ?_⟩
  exact serializeFields_deserializeFields ws bs hlen hlt

/-- Witness for C10 on the arbitrary (ID-less content) 4-byte buffer
`[0x37, 0xFF, 0x00, 0x80]` against the format `{u8, u8, u16}`. -/
theorem Message_bytes_roundtrip_witness :
    [0x37, 0xFF, 0x00, 0x80].length = formatSize [1, 1, 2] ∧
    (∀ b ∈ [0x37, 0xFF, 0x00, 0x80], b < 256) ∧
    (Message.fromBytes [1, 1, 2] [0x37, 0xFF, 0x00, 0x80] =
        .ok (deserializeFields [1, 1, 2] [0x37, 0xFF, 0x00, 0x80]) ∧
      Message.serialize [1, 1, 2] (deserializeFields [1, 1, 2] [0x37, 0xFF, 0x00, 0x80]) =
        [0x37, 0xFF, 0x00, 0x80]) :=
  ⟨by decide, by decide,
   Message_bytes_roundtrip [1, 1, 2] [0x37, 0xFF, 0x00, 0x80] (by decide) (by decide)⟩

/- ――――――――――――――――  the Handler (handler.h)  ―――――――――――――――― -/

/-- Enumeration `HANDLER_EXECUTE_STATUS` of `handler.h`: the error codes
`Handler::execute` can report in its `Result`. -/
inductive HANDLER_EXECUTE_STATUS where
  | ERROR_ID_NOT_FOUND
  | ERROR_MESSAGE_LENGTH_ERROR
  | ERROR_EXCEPTION_DURING_EXECUTION
  | ERROR_EMPTY_MESSAGE
deriving DecidableEq

/-- A registered Command type as the Handler sees it: its input format
(field widths and static `ID`) and its `execute` body.  Construction from a
raw buffer delegates to the `ReceivedMessage` constructor of the input
format; `execute` either pushes a list of response frames through
`Communicator::respond` or throws (`Except.error`). -/
structure Command where
  widths : List Nat
  fmtId : Nat
  exec : List Nat → Except Unit (List (List Nat))

/-- The C++ exceptions that can escape one disjunct of the fold in
`Handler::execute`: `MessageLengthError`, `MessageWrongIdError` (a plain
`std::exception` to the handler's catch clauses), or any exception thrown
by the command's `execute`. -/
inductive CppExn where
  | msgLengthError
  | msgWrongIdError
  | execError
deriving DecidableEq

/-- Outcome of the short-circuit fold
`((id == cmdId<Commands>() && (Commands{data}.execute(communicator), true)) || ...)`:
no command matched, the matched command ran to completion (with the frames it
responded), or an exception escaped. -/
inductive FoldOut where
  | noMatch
  | matchedOk (frames : List (List Nat))
  | thrown (e : CppExn)
deriving DecidableEq

/-- One matched disjunct of the fold: `Commands{data}.execute(communicator)` —
construct the command from the full buffer, then run its body. -/
def runCommand (c : Command) (data : List Nat) : FoldOut :=
  match ReceivedMessage.fromBytesChecked c.widths c.fmtId data with
  | .error .LengthError => .thrown .msgLengthError
  | .error .WrongIdError => .thrown .msgWrongIdError
  | .ok content =>
    match c.exec content with
    | .error _ => .thrown .execError
    | .ok frames => .matchedOk frames

/-- Instance bookkeeping for one matched disjunct: (completed constructions
of the command, invocations of its `execute`). -/
def runCount (c : Command) (data : List Nat) : Nat × Nat :=
  match ReceivedMessage.fromBytesChecked c.widths c.fmtId data with
  | .error _ => (0, 0)
  | .ok _ => (1, 1)

/-- The short-circuit fold over the registered command list, left to right:
the first command whose static ID equals the leading byte is constructed and
executed; all commands after it (and all non-matching ones) are untouched. -/
def tryCommands (id : Nat) (data : List Nat) : List Command → FoldOut
  | [] => .noMatch
  | c :: rest =>
    if id = c.fmtId then runCommand c data else tryCommands id data rest

/-- Per-command instance bookkeeping of the fold, in registration order:
(completed constructions, `execute` invocations) for each registered
command. -/
def tryCount (id : Nat) (data : List Nat) : List Command → List (Nat × Nat)
  | [] => []
  | c :: rest =>
    if id = c.fmtId then runCount c data :: rest.map (fun _ => (0, 0))
    else (0, 0) :: tryCount id data rest

/-- The command the fold selects for a leading byte: the first (under the
uniqueness invariant, the only) registered command whose static ID equals
it. -/
def selectedCommand (cmds : List Command) (id : Nat) : Option Command :=
  cmds.find? (fun c => id == c.fmtId)

/-- Predicate `command_helpers::UniqueIds`: the head command's ID differs from every
later command's ID, recursively. -/
def UniqueIds : List Command → Bool
  | [] => true
  | c :: rest => rest.all (fun c' => c.fmtId != c'.fmtId) && UniqueIds rest

/-- The `Handler<Commands...>` class: a compile-time-fixed command list whose
`static_assert(command_helpers::UniqueIds<Commands...>::value, ...)` is part
of the type's formation. -/
structure Handler where
  commands : List Command
  uniqueIds : UniqueIds commands = true

/-- Dispatch `Handler::execute`: reject an empty buffer, read the leading byte, run
the short-circuit fold, and classify the outcome — no match, success, a
caught `MessageLengthError`, or any other exception — into the `Result`.
The success value carries the frames the command pushed through the
communicator. -/
def Handler.execute (cmds : List Command) (data : List Nat) :
    Except HANDLER_EXECUTE_STATUS (List (List Nat)) :=
  match data with
  | [] => .error .ERROR_EMPTY_MESSAGE
  | id :: rest =>
    match tryCommands id (id :: rest) cmds with
    | .noMatch => .error .ERROR_ID_NOT_FOUND
    | .matchedOk frames => .ok frames
    | .thrown .msgLengthError => .error .ERROR_MESSAGE_LENGTH_ERROR
    | .thrown .msgWrongIdError => .error .ERROR_EXCEPTION_DURING_EXECUTION
    | .thrown .execError => .error .ERROR_EXCEPTION_DURING_EXECUTION

/-- Instance bookkeeping of one `Handler::execute` call, in registration
order: (completed constructions, `execute` invocations) per registered
command. -/
def Handler.execCount (cmds : List Command) (data : List Nat) : List (Nat × Nat) :=
  match data with
  | [] => cmds.map (fun _ => (0, 0))
  | id :: rest => tryCount id (id :: rest) cmds

/- ――――――――――――――――  lemmas about the dispatch fold  ―――――――――――――――― -/

theorem uniqueIds_nodup (cmds : List Command) :
    UniqueIds cmds = true ↔ (cmds.map Command.fmtId).Nodup := by
  induction cmds with
  | nil => simp [UniqueIds]
  | cons c rest ih =>
    simp only [UniqueIds, Bool.and_eq_true, List.all_eq_true, bne_iff_ne, ne_eq,
      List.map_cons, List.nodup_cons, List.mem_map, ih]
    constructor
    · rintro ⟨h1, h2⟩
      exact ⟨fun ⟨a, ha, hfa⟩ => h1 a ha hfa.symm, h2⟩
    · rintro ⟨h1, h2⟩
      exact ⟨fun a ha hfa => h1 ⟨a, ha, hfa.symm⟩, h2⟩

theorem tryCommands_eq_selected (id : Nat) (data : List Nat) (cmds : List Command) :
    tryCommands id data cmds =
      match selectedCommand cmds id with
      | none => .noMatch
      | some c => runCommand c data := by
  induction cmds with
  | nil => simp [tryCommands, selectedCommand]
  | cons c rest ih =>
    by_cases h : id = c.fmtId
    · simp [tryCommands, selectedCommand, List.find?_cons, h]
    · have hbeq : (id == c.fmtId) = false := by simp [h]
      simp only [tryCommands, if_neg h, selectedCommand, List.find?_cons, hbeq]
      exact ih

theorem tryCommands_noMatch (id : Nat) (data : List Nat) (cmds : List Command)
    (h : ∀ c ∈ cmds, c.fmtId ≠ id) :
    tryCommands id data cmds = .noMatch ∧
    tryCount id data cmds = cmds.map (fun _ => (0, 0)) := by
  induction cmds with
  | nil => simp [tryCommands, tryCount]
  | cons c rest ih =>
    have hc : c.fmtId ≠ id := h c (List.mem_cons_self _ _)
    have hrest := ih (fun c' hc' => h c' (List.mem_cons_of_mem _ hc'))
    have hne : ¬(id = c.fmtId) := fun he => hc he.symm
    simp only [tryCommands, tryCount, if_neg hne, List.map_cons]
    exact ⟨hrest.1, by rw [hrest.2]⟩

theorem tryCount_one_hot (id : Nat) (data : List Nat) (cmds : List Command)
    (i : Nat) (hi : i < cmds.length) (huniq : UniqueIds cmds = true)
    (hid : cmds[i].fmtId = id) :
    tryCount id data cmds =
      (cmds.map (fun _ => (0, 0))).set i (runCount cmds[i] data) ∧
    tryCommands id data cmds = runCommand cmds[i] data := by
  induction cmds generalizing i with
  | nil => exact absurd hi (by simp)
  | cons c rest ih =>
    simp only [UniqueIds, Bool.and_eq_true, List.all_eq_true, bne_iff_ne, ne_eq] at huniq
    cases i with
    | zero =>
      simp only [List.getElem_cons_zero] at hid ⊢
      have hif : id = c.fmtId := hid.symm
      simp only [tryCount, tryCommands, if_pos hif, List.map_cons, List.set_cons_zero]
      simp
    | succ i' =>
      simp only [List.getElem_cons_succ] at hid ⊢
      have hi' : i' < rest.length := by
        simpa using hi
      have hmem : rest[i'] ∈ rest := List.getElem_mem hi'
      have hcne : ¬(id = c.fmtId) := by
        intro he
        exact (huniq.1 rest[i'] hmem) (he ▸ hid.symm) |>.elim
      have hrest := ih i' hi' huniq.2 hid
      simp only [tryCount, tryCommands, if_neg hcne, List.map_cons, List.set_cons_succ]
      exact ⟨by rw [hrest.1], hrest.2⟩

theorem selectedCommand_perm (cmds cmds' : List Command)
    (hperm : cmds.Perm cmds') (hnodup : (cmds.map Command.fmtId).Nodup)
    (id : Nat) : selectedCommand cmds id = selectedCommand cmds' id := by
  unfold selectedCommand
  cases hfind : cmds.find? (fun c => id == c.fmtId) with
  | none =>
    have hnone : ∀ c ∈ cmds, ¬(id == c.fmtId) = true := List.find?_eq_none.mp hfind
    symm
    exact List.find?_eq_none.mpr (fun c hc => hnone c (hperm.mem_iff.mpr hc))
  | some c =>
    have hc := List.find?_some hfind
    have hcmem : c ∈ cmds := List.mem_of_find?_eq_some hfind
    cases hfind' : cmds'.find? (fun c' => id == c'.fmtId) with
    | none =>
      have := List.find?_eq_none.mp hfind' c (hperm.mem_iff.mp hcmem)
      exact absurd hc this
    | some c' =>
      have hc' := List.find?_some hfind'
      have hcmem' : c' ∈ cmds := hperm.mem_iff.mpr (List.mem_of_find?_eq_some hfind')
      have : c = c' := by
        apply List.inj_on_of_nodup_map hnodup hcmem hcmem'
        rw [← beq_iff_eq.mp hc, ← beq_iff_eq.mp hc']
      rw [this]

theorem map_zero_set (cmds : List Command) (i : Nat) :
    ((cmds.map (fun _ => ((0 : Nat), (0 : Nat)))).set i (0, 0)) =
      cmds.map (fun _ => (0, 0)) := by
  induction cmds generalizing i with
  | nil => simp
  | cons c rest ih =>
    cases i with
    | zero => simp
    | succ i' => simp [ih]

/- ――――――――――――――――  concrete formats and commands of the test suite  ―――――――――――――――― -/

/-- Format `FormatA` of the handler tests: `{id : u8 = 0x01, op : u8, val : u16}`. -/
def FormatA_widths : List Nat := [1, 1, 2]

/-- Format `ResponseFormat` of the handler tests:
`{id : u8 = 0x90, status : u8, result : u16}`. -/
def ResponseFormat_widths : List Nat := [1, 1, 2]

/-- Command `CommandA` of the handler tests: responds with one frame
`{id = 0x90, status = op, result = (u16)(val + 1)}`, pushed through
`communicator.respond(SentMessage(r).serialize())`. -/
def CommandA : Command where
  widths := FormatA_widths
  fmtId := 0x01
  exec := fun content =>
    .ok [Message.serialize ResponseFormat_widths
      [0x90, content.getD 1 0, (content.getD 2 0 + 1) % 2 ^ 16]]

/-- Command `CommandB` of the handler tests (`FormatB` is `{id : u8 = 0x02, code : u8,
x : u16}`): responds with one frame `{id = 0x90, status = code,
result = (u16)(x ^ 0x00FF)}`. -/
def CommandB : Command where
  widths := [1, 1, 2]
  fmtId := 0x02
  exec := fun content =>
    .ok [Message.serialize ResponseFormat_widths
      [0x90, content.getD 1 0, Nat.xor (content.getD 2 0) 0xFF % 2 ^ 16]]

/-- Command `CommandC` of the handler tests (`FormatC` is `{id : u8 = 0x03, flag : u8,
y : u16}`): responds with one frame `{id = 0x90, status = flag, result = y}`. -/
def CommandC : Command where
  widths := [1, 1, 2]
  fmtId := 0x03
  exec := fun content =>
    .ok [Message.serialize ResponseFormat_widths
      [0x90, content.getD 1 0, content.getD 2 0]]

/- ――――――――――――――――  claims about the Handler  ―――――――――――――――― -/

/-- Claim C1: for a registered command set with unique IDs and an input
buffer of the matched command's format size whose leading byte equals that
command's ID, `Handler::execute` completes exactly one construction of that
command and zero of every other registered command, and invokes that one
instance's `execute` exactly once. -/
theorem Handler_dispatch_correct (cmds : List Command) (i : Nat) (data : List Nat)
    (hi : i < cmds.length) (huniq : UniqueIds cmds = true)
    (hhead : data.head? = some cmds[i].fmtId)
    (hlen : data.length = formatSize cmds[i].widths) :
    Handler.execCount cmds data = (cmds.map (fun _ => (0, 0))).set i (1, 1) := by
  cases data with
  | nil => exact absurd hhead (by simp)
  | cons id rest =>
    simp only [List.head?_cons, Option.some.injEq] at hhead
    subst hhead
    have hone := tryCount_one_hot cmds[i].fmtId (cmds[i].fmtId :: rest) cmds i hi huniq rfl
    have hctor : ReceivedMessage.fromBytesChecked cmds[i].widths cmds[i].fmtId
        (cmds[i].fmtId :: rest) =
        .ok (deserializeFields cmds[i].widths (cmds[i].fmtId :: rest)) := by
      unfold ReceivedMessage.fromBytesChecked
      rw [if_neg (fun hc => hc hlen), if_neg (fun hc => hc rfl)]
    have hrun : runCount cmds[i] (cmds[i].fmtId :: rest) = (1, 1) := by
      unfold runCount
      rw [hctor]
    simp only [Handler.execCount]
    rw [hone.1, hrun]

/-- Witness for C1: the test handler's `CommandB` buffer
`{id = 0x02, code = 0x3C, x = 0x0123}` against the registration order
`[CommandA, CommandB, CommandC]` constructs and executes only `CommandB`. -/
theorem Handler_dispatch_correct_witness :
    1 < [CommandA, CommandB, CommandC].length ∧
    UniqueIds [CommandA, CommandB, CommandC] = true ∧
    [0x02, 0x3C, 0x23, 0x01].head? = some [CommandA, CommandB, CommandC][1].fmtId ∧
    [0x02, 0x3C, 0x23, 0x01].length = formatSize [CommandA, CommandB, CommandC][1].widths ∧
    Handler.execCount [CommandA, CommandB, CommandC] [0x02, 0x3C, 0x23, 0x01] =
      ([CommandA, CommandB, CommandC].map (fun _ => (0, 0))).set 1 (1, 1) :=
  ⟨by decide, by decide, by decide, by decide,
   Handler_dispatch_correct [CommandA, CommandB, CommandC] 1 [0x02, 0x3C, 0x23, 0x01]
     (by decide) (by decide) (by decide) (by decide)⟩

/-- Claim C4: for every command set, dispatch on an empty buffer reports
`ERROR_EMPTY_MESSAGE` and completes zero command constructions and zero
`execute` invocations; dispatch on a non-empty buffer whose leading byte
matches no registered command's ID reports `ERROR_ID_NOT_FOUND`, again with
zero constructions and zero invocations. -/
theorem Handler_empty_unknown (cmds : List Command) (id : Nat) (rest : List Nat) :
    (Handler.execute cmds [] = .error .ERROR_EMPTY_MESSAGE ∧
      Handler.execCount cmds [] = cmds.map (fun _ => (0, 0))) ∧
    ((∀ c ∈ cmds, c.fmtId ≠ id) →
      Handler.execute cmds (id :: rest) = .error .ERROR_ID_NOT_FOUND ∧
      Handler.execCount cmds (id :: rest) = cmds.map (fun _ => (0, 0))) := by
  refine ⟨⟨rfl, rfl⟩, fun hno => ?_⟩
  have h := tryCommands_noMatch id (id :: rest) cmds hno
  constructor
  · simp only [Handler.execute]
    rw [h.1]
  · simp only [Handler.execCount]
    exact h.2

/-- Witness for C4: the empty buffer, and the unknown leading byte `0x7F` of
the test `ThrowsOnUnknownId`, against `[CommandA, CommandB, CommandC]`. -/
theorem Handler_empty_unknown_witness :
    (Handler.execute [CommandA, CommandB, CommandC] [] = .error .ERROR_EMPTY_MESSAGE ∧
      Handler.execCount [CommandA, CommandB, CommandC] [] =
        [CommandA, CommandB, CommandC].map (fun _ => (0, 0))) ∧
    (∀ c ∈ [CommandA, CommandB, CommandC], c.fmtId ≠ 0x7F) ∧
    (Handler.execute [CommandA, CommandB, CommandC] [0x7F, 0x00, 0x00, 0x00] =
        .error .ERROR_ID_NOT_FOUND ∧
      Handler.execCount [CommandA, CommandB, CommandC] [0x7F, 0x00, 0x00, 0x00] =
        [CommandA, CommandB, CommandC].map (fun _ => (0, 0))) :=
  ⟨(Handler_empty_unknown [CommandA, CommandB, CommandC] 0x7F [0x00, 0x00, 0x00]).1,
   by decide,
   (Handler_empty_unknown [CommandA, CommandB, CommandC] 0x7F [0x00, 0x00, 0x00]).2
     (by decide)⟩

/-- Claim C5: when construction of the matched command fails, the failure can
only be a `MessageLengthError` — never a `MessageWrongIdError`, since the
match guarantees the leading byte equals the command's ID — and
`Handler::execute` reports it as the distinct status
`ERROR_MESSAGE_LENGTH_ERROR` (different from the generic
`ERROR_EXCEPTION_DURING_EXECUTION`), with the command's `execute` never
invoked; a failure thrown by `execute` itself is reported as the generic
`ERROR_EXCEPTION_DURING_EXECUTION`; and `Handler.execute` is a total
function into `Result`, so no exception propagates to the caller. -/
theorem Handler_error_classification (cmds : List Command) (i : Nat) (rest : List Nat)
    (hi : i < cmds.length) (huniq : UniqueIds cmds = true) :
    (ReceivedMessage.fromBytesChecked cmds[i].widths cmds[i].fmtId
        (cmds[i].fmtId :: rest) ≠ .error .WrongIdError) ∧
    (ReceivedMessage.fromBytesChecked cmds[i].widths cmds[i].fmtId
        (cmds[i].fmtId :: rest) = .error .LengthError →
      Handler.execute cmds (cmds[i].fmtId :: rest) = .error .ERROR_MESSAGE_LENGTH_ERROR ∧
      Handler.execCount cmds (cmds[i].fmtId :: rest) = cmds.map (fun _ => (0, 0))) ∧
    (∀ content e,
      ReceivedMessage.fromBytesChecked cmds[i].widths cmds[i].fmtId
        (cmds[i].fmtId :: rest) = .ok content →
      cmds[i].exec content = .error e →
      Handler.execute cmds (cmds[i].fmtId :: rest) =
        .error .ERROR_EXCEPTION_DURING_EXECUTION) ∧
    HANDLER_EXECUTE_STATUS.ERROR_MESSAGE_LENGTH_ERROR ≠
      HANDLER_EXECUTE_STATUS.ERROR_EXCEPTION_DURING_EXECUTION := by
  have hone := tryCount_one_hot cmds[i].fmtId (cmds[i].fmtId :: rest) cmds i hi huniq rfl
  refine ⟨?_, ?_, ?_, by decide⟩
  · intro heq
    unfold ReceivedMessage.fromBytesChecked at heq
    by_cases hl : (cmds[i].fmtId :: rest).length ≠ formatSize cmds[i].widths
    · rw [if_pos hl] at heq
      simp at heq
    · rw [if_neg hl, if_neg (fun hc => hc rfl)] at heq
      exact Except.noConfusion heq
  · intro hctorErr
    have hrunc : runCommand cmds[i] (cmds[i].fmtId :: rest) = .thrown .msgLengthError := by
      unfold runCommand
      rw [hctorErr]
    have hcnt : runCount cmds[i] (cmds[i].fmtId :: rest) = (0, 0) := by
      unfold runCount
      rw [hctorErr]
    constructor
    · simp only [Handler.execute]
      rw [hone.2, hrunc]
    · simp only [Handler.execCount]
      rw [hone.1, hcnt, map_zero_set]
  · intro content e hok hexec
    have hrunc : runCommand cmds[i] (cmds[i].fmtId :: rest) = .thrown .execError := by
      unfold runCommand
      simp only [hok, hexec]
    simp only [Handler.execute]
    rw [hone.2, hrunc]

/-- Witness for C5 at the test `ThrowsOnWrongSize`: a 5-byte buffer headed by
`CommandA`'s ID against its 4-byte format, dispatched over
`[CommandA, CommandB, CommandC]`. -/
theorem Handler_error_classification_witness :
    0 < [CommandA, CommandB, CommandC].length ∧
    UniqueIds [CommandA, CommandB, CommandC] = true ∧
    ReceivedMessage.fromBytesChecked [CommandA, CommandB, CommandC][0].widths
      [CommandA, CommandB, CommandC][0].fmtId
      ([CommandA, CommandB, CommandC][0].fmtId :: [0x00, 0x00, 0x00, 0x00]) =
      .error .LengthError ∧
    (Handler.execute [CommandA, CommandB, CommandC]
        ([CommandA, CommandB, CommandC][0].fmtId :: [0x00, 0x00, 0x00, 0x00]) =
      .error .ERROR_MESSAGE_LENGTH_ERROR ∧
    Handler.execCount [CommandA, CommandB, CommandC]
        ([CommandA, CommandB, CommandC][0].fmtId :: [0x00, 0x00, 0x00, 0x00]) =
      [CommandA, CommandB, CommandC].map (fun _ => (0, 0))) :=
  ⟨by decide, by decide, by rfl,
   (Handler_error_classification [CommandA, CommandB, CommandC] 0
       [0x00, 0x00, 0x00, 0x00] (by decide) (by decide)).2.1 (by rfl)⟩

/-- Claim C7: `command_helpers::UniqueIds` over a command list is `true`
exactly when the list of the commands' static IDs has no duplicates, and a
`Handler` — whose formation carries the
`static_assert(command_helpers::UniqueIds<...>)` — can only exist over a
command set with duplicate-free IDs. -/
theorem UniqueIds_correct :
    (∀ cmds : List Command,
      UniqueIds cmds = true ↔ (cmds.map Command.fmtId).Nodup) ∧
    (∀ h : Handler, (h.commands.map Command.fmtId).Nodup) :=
  ⟨uniqueIds_nodup, fun h => (uniqueIds_nodup h.commands).mp h.uniqueIds⟩

/-- Claim C8: under the unique-ID invariant, permuting the registration
order changes neither the command the dispatch scan selects for any leading
byte nor the outcome `Handler::execute` reports for any buffer. -/
theorem Handler_order_independent (cmds cmds' : List Command) (data : List Nat)
    (hperm : cmds.Perm cmds') (huniq : UniqueIds cmds = true) :
    (∀ id, selectedCommand cmds id = selectedCommand cmds' id) ∧
    Handler.execute cmds data = Handler.execute cmds' data := by
  have hnodup := (uniqueIds_nodup cmds).mp huniq
  have hsel := selectedCommand_perm cmds cmds' hperm hnodup
  refine ⟨hsel, ?_⟩
  cases data with
  | nil => rfl
  | cons id rest =>
    simp only [Handler.execute]
    rw [tryCommands_eq_selected, tryCommands_eq_selected, hsel id]

/-- Witness for C8: the handlers `TestHandlerAB` and `TestHandlerBA` (the
same commands in swapped order) agree on `CommandB`'s buffer
`{id = 0x02, code = 0x3C, x = 0x0123}`. -/
theorem Handler_order_independent_witness :
    [CommandA, CommandB].Perm [CommandB, CommandA] ∧
    UniqueIds [CommandA, CommandB] = true ∧
    ((∀ id, selectedCommand [CommandA, CommandB] id =
        selectedCommand [CommandB, CommandA] id) ∧
      Handler.execute [CommandA, CommandB] [0x02, 0x3C, 0x23, 0x01] =
        Handler.execute [CommandB, CommandA] [0x02, 0x3C, 0x23, 0x01]) :=
  ⟨List.Perm.swap CommandB CommandA [], by decide,
   Handler_order_independent [CommandA, CommandB] [CommandB, CommandA]
     [0x02, 0x3C, 0x23, 0x01] (List.Perm.swap CommandB CommandA []) (by decide)⟩

/-- Claim C9: dispatching the input bytes `[0x01, 0x10, 0x11, 0x22]`
(little-endian `val = 0x2211`) over a handler registering `CommandA` —
which echoes `status = op`, `result = val + 1` — succeeds with exactly one
response frame, the serialized bytes of
`{id = 0x90, status = 0x10, result = 0x2212}`. -/
theorem Handler_concrete_scenario :
    Handler.execute [CommandA, CommandB, CommandC] [0x01, 0x10, 0x11, 0x22] =
      .ok [Message.serialize ResponseFormat_widths [0x90, 0x10, 0x2212]] ∧
    Message.serialize ResponseFormat_widths [0x90, 0x10, 0x2212] =
      [0x90, 0x10, 0x12, 0x22] := by
  constructor
  · rfl
  · rfl
